import Mathlib

/-
Shallow embedding of the Go package `autosite` (automatic Google App Engine
site definition from template-file structure).  Pure functions of the source
(`parsePath`, `getDate`, `before`) become Lean functions; the page registry
(a Go map from URI strings to pages) becomes an association list with
Go-map insert/delete/lookup semantics; `log.Fatalf` becomes an
`Except.error` result; the two external effects (glob expansion and
template compilation/rendering) are injected as parameters.
-/

set_option autoImplicit false

namespace Autosite

/-- Build-time and mutation errors of the package.  Each constructor records
the offending value, mirroring the `fmt.Errorf`/`log.Fatalf` messages. -/
inductive SiteError where
  | globFailure (msg : String)
  | noPagesFound
  | badTemplatePath (path : String)
  | badYear (y : String)
  | badMonth (m : String)
  | noPageWithURI (uri : String)
  | uriTaken (uri : String)
  deriving DecidableEq, Repr

/-- Decidable equality for fallible results, so that claims can be checked
on concrete inputs by evaluation. -/
instance {ε α : Type} [DecidableEq ε] [DecidableEq α] : DecidableEq (Except ε α) := fun x y =>
  match x, y with
  | Except.error a, Except.error b =>
    if h : a = b then isTrue (congrArg Except.error h)
    else isFalse (fun he => h (Except.error.inj he))
  | Except.error _, Except.ok _ => isFalse (fun he => Except.noConfusion he)
  | Except.ok _, Except.error _ => isFalse (fun he => Except.noConfusion he)
  | Except.ok a, Except.ok b =>
    if h : a = b then isTrue (congrArg Except.ok h)
    else isFalse (fun he => h (Except.ok.inj he))

/-- Check whether the first list is a leading segment of the second,
comparing characters one by one. -/
def hasPrefixL : List Char → List Char → Bool
  | [], _ => true
  | _ :: _, [] => false
  | a :: as, b :: bs => a == b && hasPrefixL as bs

/-- Check whether `needle` occurs contiguously anywhere in the second list;
embeds Go `strings.Contains`. -/
def containsSub (needle : List Char) : List Char → Bool
  | [] => hasPrefixL needle []
  | c :: rest => hasPrefixL needle (c :: rest) || containsSub needle rest

/-- True when the path contains the substring `.#`; such paths are
editor lock files and are filtered out by `getFiles`. -/
def containsDotHash (p : String) : Bool :=
  containsSub ".#".toList p.toList

/-- Split a character list at every occurrence of `sep`, keeping empty
pieces; embeds the behaviour of Go `strings.Split` for a one-character
separator. -/
def splitOnChar (sep : Char) : List Char → List (List Char)
  | [] => [[]]
  | c :: rest =>
    if c = sep then [] :: splitOnChar sep rest
    else
      match splitOnChar sep rest with
      | [] => [[c]]
      | h :: t => (c :: h) :: t

/-- Split a string on a separator character, as `strings.Split(s, sep)`. -/
def goSplit (s : String) (sep : Char) : List String :=
  (splitOnChar sep s.toList).map (fun cs => String.mk cs)

/-- Concatenate the pieces with `sep` between consecutive ones, as
`strings.Join`. -/
def goJoin (sep : String) : List String → String
  | [] => ""
  | [x] => x
  | x :: y :: rest => x ++ sep ++ goJoin sep (y :: rest)

/-- Check whether `suffix` is a trailing segment of `s`. -/
def hasSuffixL (s suffix : List Char) : Bool :=
  hasPrefixL suffix.reverse s.reverse

/-- Remove a trailing `suffix` from `s` when present, as
`strings.TrimSuffix`. -/
def trimSuffix (s suffix : String) : String :=
  if hasSuffixL s.toList suffix.toList then
    String.mk (s.toList.take (s.toList.length - suffix.toList.length))
  else s

/-- Numeric value of a decimal digit character. -/
def digitVal (c : Char) : Nat := c.toNat - '0'.toNat

/-- Embed Go `strconv.ParseInt(s, 10, 0)` on a 64-bit platform: an optional
sign followed by at least one decimal digit, rejected when the value leaves
the signed 64-bit range. -/
def parseSignedInt (s : String) : Option Int :=
  let signAndDigits : Int × List Char :=
    match s.toList with
    | '+' :: rest => (1, rest)
    | '-' :: rest => (-1, rest)
    | cs => (1, cs)
  let digits := signAndDigits.2
  if digits.isEmpty then none
  else if digits.all Char.isDigit then
    let v : Int := signAndDigits.1 * (digits.foldl (fun acc c => acc * 10 + digitVal c) 0 : Nat)
    if v < -(2 ^ 63) ∨ (2 ^ 63 - 1 : Int) < v then none else some v
  else none

/-- Publication year, `type year int` in the source. -/
abbrev year := Int

/-- Rough point in time: a year and a month, as in the source's `date`
struct; the zero value `⟨0, 0⟩` means "no date". -/
structure date where
  Year : year
  Month : Int
  deriving DecidableEq, Repr

/-- Embed `date.before`: year first, then month. -/
def date.before (d other : date) : Bool :=
  if d.Year < other.Year then true
  else if d.Year = other.Year then decide (d.Month < other.Month)
  else false

/-- Embed `getDate`: the year string must parse to an integer strictly
between 1900 and 99999, the month string to an integer in [1, 12]. -/
def getDate (y m : String) : Except SiteError date :=
  match parseSignedInt y with
  | none => .error (.badYear y)
  | some y64 =>
    if y64 ≤ 1900 ∨ 99999 ≤ y64 then .error (.badYear y)
    else
      match parseSignedInt m with
      | none => .error (.badMonth m)
      | some month =>
        if month < 1 ∨ 12 < month then .error (.badMonth m)
        else .ok { Year := y64, Month := month }

/-- Embed `parsePath`: split on `/`; two segments mean a dateless page whose
URI is the slash-prefixed file name without the `.tmpl` suffix; four
segments mean a dated page whose URI joins segments 2–4 (the leading
directory is dropped) and whose date comes from segments 2 and 3; any other
shape is an error. -/
def parsePath (p : String) : Except SiteError (String × date) :=
  match goSplit p '/' with
  | [_, f] => .ok ("/" ++ trimSuffix f ".tmpl", { Year := 0, Month := 0 })
  | [_, y, m, f] =>
    let uri := "/" ++ goJoin "/" [y, m, trimSuffix f ".tmpl"]
    match getDate y m with
    | .error e => .error e
    | .ok d => .ok (uri, d)
  | _ => .error (.badTemplatePath p)

/-- Embed `getFiles`.  Glob expansion is an external effect, so its outcome
is passed in: an expansion error is propagated, an empty match list is the
`noPagesFound` error, and otherwise the matches are returned with every
path containing `.#` filtered out (the emptiness check precedes the
filter). -/
def getFiles (globResult : Except SiteError (List String)) :
    Except SiteError (List String) :=
  match globResult with
  | .error e => .error e
  | .ok paths =>
    if paths.length = 0 then .error .noPagesFound
    else .ok (paths.filter (fun p => !containsDotHash p))

/-- Opaque handle for a compiled template unit; the compiler is an external
collaborator, so the handle just records which files were compiled. -/
structure Template where
  files : List String
  deriving DecidableEq, Repr

/-- Embed the source's `page` struct: a routable HTML resource.  `tmpl` is
the possibly-nil compiled-template pointer and `redirectURI` the optional
redirect target; `Data` stands for the opaque `interface{}` payload. -/
structure page where
  Title : String
  Date : date
  URI : String
  Data : Option Unit
  redirectURI : String
  tmpl : Option Template
  deriving DecidableEq, Repr

/-- Look up a key in the registry, as a read of the Go map `s.pages`. -/
def mapLookup : List (String × page) → String → Option page
  | [], _ => none
  | e :: rest, k => if e.1 = k then some e.2 else mapLookup rest k

/-- Store a value under a key, as a Go map assignment: replace the entry
when the key is present, append it otherwise. -/
def mapInsert : List (String × page) → String → page → List (String × page)
  | [], k, v => [(k, v)]
  | e :: rest, k, v => if e.1 = k then (k, v) :: rest else e :: mapInsert rest k v

/-- Remove a key, as Go `delete(s.pages, k)`. -/
def mapDelete : List (String × page) → String → List (String × page)
  | [], _ => []
  | e :: rest, k => if e.1 = k then mapDelete rest k else e :: mapDelete rest k

/-- Representation invariant of the association list standing for a Go map:
the keys are pairwise distinct. -/
def NodupKeys (m : List (String × page)) : Prop :=
  (m.map Prod.fst).Nodup

/-- Embed the source's `Site` struct. -/
structure Site where
  liveDomain : String
  title : String
  glob : String
  templates : List String
  pages : List (String × page)
  deriving DecidableEq, Repr

/-- Embed `addPage`: compile the given template files (when any) and insert
a page under `uri`; a discovered page carries no redirect target. -/
def Site.addPage (s : Site) (uri : String) (d : date) (data : Option Unit)
    (tmpls : List String) : Site :=
  let t : Option Template := if tmpls.length > 0 then some ⟨tmpls⟩ else none
  let p : page :=
    { Title := s.title, URI := uri, Data := data, Date := d,
      redirectURI := "", tmpl := t }
  { s with pages := mapInsert s.pages uri p }

/-- Loop body of `read`: parse each discovered path and add the page,
stopping at the first parse error. -/
def Site.readPages (s : Site) : List String → Except SiteError Site
  | [] => .ok s
  | path :: rest =>
    match parsePath path with
    | .error e => .error e
    | .ok (uri, d) =>
      Site.readPages (s.addPage uri d none (s.templates ++ [path])) rest

/-- Embed `read`: discover the template files and build the registry from
an empty map. -/
def Site.read (s : Site) (globResult : Except SiteError (List String)) :
    Except SiteError Site :=
  match getFiles globResult with
  | .error e => .error e
  | .ok filePaths => Site.readPages { s with pages := [] } filePaths

/-- Embed `New`: construct the site and run `read`; a `read` failure is
fatal (`log.Fatalf`), here an error result. -/
def New (title glob liveDomain : String) (templates : List String)
    (globResult : Except SiteError (List String)) : Except SiteError Site :=
  Site.read
    { liveDomain := liveDomain, title := title, glob := glob,
      templates := templates, pages := [] } globResult

/-- Embed `ChangeURI`: fatal when the old URI is unregistered; otherwise
rewrite the page's URI field, delete the old key and store the page under
the new key. -/
def Site.ChangeURI (s : Site) (uri newURI : String) : Except SiteError Site :=
  match mapLookup s.pages uri with
  | none => .error (.noPageWithURI uri)
  | some p =>
    let p' : page := { p with URI := newURI }
    .ok { s with pages := mapInsert (mapDelete s.pages uri) newURI p' }

/-- Embed `AddRedirect`: fatal when the URI is already taken; otherwise
insert a redirect-only page (no compiled template). -/
def Site.AddRedirect (s : Site) (uri redirectURI : String) :
    Except SiteError Site :=
  match mapLookup s.pages uri with
  | some _ => .error (.uriTaken uri)
  | none =>
    let p : page :=
      { Title := s.title, Date := { Year := 0, Month := 0 }, URI := uri,
        Data := none, redirectURI := redirectURI, tmpl := none }
    .ok { s with pages := mapInsert s.pages uri p }

/-- Outcome of one request, abstracting the writes `ServeHTTP` performs on
the response writer. -/
inductive Response where
  | notFound
  | redirect (location : String)
  | rendered
  | internalError
  deriving DecidableEq, Repr

/-- Embed `page.ServeHTTP`.  Rendering is external, so its success is the
parameter `renderOk`: a raw request URI different from the page's URI is
404; else a non-empty redirect target gives 302 to it; else the template is
rendered, a failure giving 500 (and killing the process). -/
def page.ServeHTTP (renderOk : Bool) (p : page) (requestURI : String) :
    Response :=
  if p.URI ≠ requestURI then .notFound
  else if p.redirectURI ≠ "" then .redirect p.redirectURI
  else if renderOk then .rendered else .internalError

/-- Sites reachable through the package's mutation surface: a successful
`read` (construction), then any successful `ChangeURI` and `AddRedirect`
calls. -/
inductive Reachable : Site → Prop where
  | init (s₀ : Site) (globResult : Except SiteError (List String)) (s : Site) :
      Site.read s₀ globResult = Except.ok s → Reachable s
  | change (s : Site) (u v : String) (s' : Site) :
      Reachable s → Site.ChangeURI s u v = Except.ok s' → Reachable s'
  | addRedir (s : Site) (u r : String) (s' : Site) :
      Reachable s → Site.AddRedirect s u r = Except.ok s' → Reachable s'

/-- Sites reachable as in `Reachable`, but where every `AddRedirect` call
passes a non-empty redirect target. -/
inductive ReachableWF : Site → Prop where
  | init (s₀ : Site) (globResult : Except SiteError (List String)) (s : Site) :
      Site.read s₀ globResult = Except.ok s → ReachableWF s
  | change (s : Site) (u v : String) (s' : Site) :
      ReachableWF s → Site.ChangeURI s u v = Except.ok s' → ReachableWF s'
  | addRedir (s : Site) (u r : String) (s' : Site) :
      ReachableWF s → r ≠ "" → Site.AddRedirect s u r = Except.ok s' →
      ReachableWF s'

/-- All pages of a registry satisfy a predicate that may depend on the key
they are stored under. -/
def PagesSatK (Q : String → page → Prop) (m : List (String × page)) : Prop :=
  ∀ k p, mapLookup m k = some p → Q k p

/-- End-to-end composition for the redirect scenario: register a redirect
from `uri` to `target`, look the page up under `req` and serve `req`
against it; `none` when the registration fails or no page is stored. -/
def serveAfterRedirect (s : Site) (uri target req : String)
    (renderOk : Bool) : Option Response :=
  match Site.AddRedirect s uri target with
  | .error _ => none
  | .ok s' =>
    match mapLookup s'.pages req with
    | none => none
    | some p => some (page.ServeHTTP renderOk p req)

/-- A site before construction, used to check the theorems on concrete
runs. -/
def demoSite0 : Site :=
  { liveDomain := "d.com", title := "T", glob := "pages/*.tmpl",
    templates := ["base.tmpl"], pages := [] }

/-- The page discovered from the path `pages/home.tmpl`. -/
def demoHome : page :=
  { Title := "T", Date := { Year := 0, Month := 0 }, URI := "/home",
    Data := none, redirectURI := "",
    tmpl := some { files := ["base.tmpl", "pages/home.tmpl"] } }

/-- The site after reading the single template file `pages/home.tmpl`. -/
def demoSite : Site := { demoSite0 with pages := [("/home", demoHome)] }

/-- The home page after remapping to `/start`. -/
def demoStart : page := { demoHome with URI := "/start" }

/-- The demo site after `ChangeURI "/home" "/start"`. -/
def demoSiteStart : Site := { demoSite0 with pages := [("/start", demoStart)] }

/-- A discovered page at `/a`. -/
def demoPageA : page :=
  { Title := "T", Date := { Year := 0, Month := 0 }, URI := "/a",
    Data := none, redirectURI := "",
    tmpl := some { files := ["base.tmpl", "pages/a.tmpl"] } }

/-- A discovered page at `/b`. -/
def demoPageB : page :=
  { Title := "T", Date := { Year := 0, Month := 0 }, URI := "/b",
    Data := none, redirectURI := "",
    tmpl := some { files := ["base.tmpl", "pages/b.tmpl"] } }

/-- A site with two pages, for the frame and size properties of
`ChangeURI`. -/
def demoTwo : Site :=
  { demoSite0 with pages := [("/a", demoPageA), ("/b", demoPageB)] }

/-- The `/a` page after being moved onto the key `/b`. -/
def demoMovedA : page := { demoPageA with URI := "/b" }

/-- The two-page site after `ChangeURI "/a" "/b"` overwrote `/b`. -/
def demoTwoAfter : Site := { demoSite0 with pages := [("/b", demoMovedA)] }

/-- The degenerate page produced by `AddRedirect` with an empty target:
no compiled template and no redirect target either. -/
def demoBadPage : page :=
  { Title := "T", Date := { Year := 0, Month := 0 }, URI := "/bad",
    Data := none, redirectURI := "", tmpl := none }

/-- The demo site after `AddRedirect "/bad" ""`. -/
def demoBadSite : Site :=
  { demoSite0 with pages := [("/home", demoHome), ("/bad", demoBadPage)] }

/-
Helper lemmas about the string utilities, the date parser and the registry
map operations.  Claim theorems are stated after this section.
-/

theorem hasPrefixL_append (xs ys : List Char) : hasPrefixL xs (xs ++ ys) = true := by
  induction xs with
  | nil => rfl
  | cons a as ih => simp [hasPrefixL, ih]

theorem hasSuffixL_append (xs ys : List Char) : hasSuffixL (xs ++ ys) ys = true := by
  unfold hasSuffixL
  rw [List.reverse_append]
  exact hasPrefixL_append _ _

theorem string_mk_toList (s : String) : String.mk s.toList = s := rfl

theorem toList_append (s t : String) : (s ++ t).toList = s.toList ++ t.toList :=
  String.data_append s t

theorem trimSuffix_append (s t : String) : trimSuffix (s ++ t) t = s := by
  unfold trimSuffix
  rw [toList_append, hasSuffixL_append, if_pos rfl]
  have hlen : (s.toList ++ t.toList).length - t.toList.length = s.toList.length := by
    simp
  rw [hlen, List.take_left, string_mk_toList]

theorem getDate_ok (y m : String) (yv mv : Int)
    (hy : parseSignedInt y = some yv) (hy1 : 1900 < yv) (hy2 : yv < 99999)
    (hm : parseSignedInt m = some mv) (hm1 : 1 ≤ mv) (hm2 : mv ≤ 12) :
    getDate y m = Except.ok { Year := yv, Month := mv } := by
  unfold getDate
  rw [hy]
  simp only [hm]
  rw [if_neg (by omega), if_neg (by omega)]

theorem getDate_badYear_none (y m : String) (hy : parseSignedInt y = none) :
    getDate y m = Except.error (SiteError.badYear y) := by
  unfold getDate
  rw [hy]

theorem getDate_badYear_range (y m : String) (yv : Int)
    (hy : parseSignedInt y = some yv) (hv : yv ≤ 1900 ∨ 99999 ≤ yv) :
    getDate y m = Except.error (SiteError.badYear y) := by
  unfold getDate
  rw [hy]
  simp only [if_pos hv]

theorem getDate_badMonth_none (y m : String) (yv : Int)
    (hy : parseSignedInt y = some yv) (hv : ¬(yv ≤ 1900 ∨ 99999 ≤ yv))
    (hm : parseSignedInt m = none) :
    getDate y m = Except.error (SiteError.badMonth m) := by
  unfold getDate
  rw [hy]
  simp only [if_neg hv, hm]

theorem getDate_badMonth_range (y m : String) (yv mv : Int)
    (hy : parseSignedInt y = some yv) (hv : ¬(yv ≤ 1900 ∨ 99999 ≤ yv))
    (hm : parseSignedInt m = some mv) (hw : mv < 1 ∨ 12 < mv) :
    getDate y m = Except.error (SiteError.badMonth m) := by
  unfold getDate
  rw [hy]
  simp only [if_neg hv, hm, if_pos hw]

theorem mapLookup_insert_self (m : List (String × page)) (k : String) (v : page) :
    mapLookup (mapInsert m k v) k = some v := by
  induction m with
  | nil => simp [mapInsert, mapLookup]
  | cons e rest ih =>
    by_cases h : e.1 = k
    · simp [mapInsert, h, mapLookup]
    · simp [mapInsert, h, mapLookup, ih]

theorem mapLookup_insert_ne (m : List (String × page)) (k k' : String) (v : page)
    (h : k' ≠ k) : mapLookup (mapInsert m k v) k' = mapLookup m k' := by
  have hkk : ¬ k = k' := fun hx => h hx.symm
  induction m with
  | nil => simp [mapInsert, mapLookup, hkk]
  | cons e rest ih =>
    by_cases he : e.1 = k
    · have hek : ¬ e.1 = k' := fun hx => hkk (he ▸ hx)
      simp [mapInsert, he, mapLookup, hkk, hek]
    · simp only [mapInsert, if_neg he, mapLookup]
      rw [ih]

theorem mapLookup_delete_self (m : List (String × page)) (k : String) :
    mapLookup (mapDelete m k) k = none := by
  induction m with
  | nil => simp [mapDelete, mapLookup]
  | cons e rest ih =>
    by_cases h : e.1 = k
    · simp [mapDelete, h, ih]
    · simp [mapDelete, h, mapLookup, ih]

theorem mapLookup_delete_ne (m : List (String × page)) (k k' : String)
    (h : k' ≠ k) : mapLookup (mapDelete m k) k' = mapLookup m k' := by
  induction m with
  | nil => simp [mapDelete]
  | cons e rest ih =>
    by_cases he : e.1 = k
    · have hek : ¬ e.1 = k' := fun hx => h (hx.symm.trans he)
      rw [mapDelete, if_pos he, ih, mapLookup, if_neg hek]
    · rw [mapDelete, if_neg he]
      by_cases he' : e.1 = k'
      · rw [mapLookup, if_pos he', mapLookup, if_pos he']
      · rw [mapLookup, if_neg he', mapLookup, if_neg he', ih]

theorem mapLookup_insert_cases (m : List (String × page)) (k k' : String)
    (v p : page) (h : mapLookup (mapInsert m k v) k' = some p) :
    (k' = k ∧ p = v) ∨ (k' ≠ k ∧ mapLookup m k' = some p) := by
  by_cases he : k' = k
  · subst he
    rw [mapLookup_insert_self] at h
    exact Or.inl ⟨rfl, (Option.some.inj h).symm⟩
  · rw [mapLookup_insert_ne m k k' v he] at h
    exact Or.inr ⟨he, h⟩

theorem mapLookup_delete_sub (m : List (String × page)) (k k' : String)
    (p : page) (h : mapLookup (mapDelete m k) k' = some p) :
    mapLookup m k' = some p := by
  by_cases he : k' = k
  · subst he; rw [mapLookup_delete_self] at h; exact absurd h (by simp)
  · rwa [mapLookup_delete_ne m k k' he] at h

theorem mapLookup_none_of_not_mem_keys (m : List (String × page)) (k : String)
    (h : k ∉ m.map Prod.fst) : mapLookup m k = none := by
  induction m with
  | nil => rfl
  | cons e rest ih =>
    simp only [List.map_cons, List.mem_cons, not_or] at h
    have hek : ¬ e.1 = k := fun hx => h.1 hx.symm
    rw [mapLookup, if_neg hek, ih h.2]

theorem mapDelete_of_not_mem (m : List (String × page)) (k : String)
    (h : mapLookup m k = none) : mapDelete m k = m := by
  induction m with
  | nil => rfl
  | cons e rest ih =>
    by_cases he : e.1 = k
    · rw [mapLookup, if_pos he] at h; exact absurd h (by simp)
    · rw [mapLookup, if_neg he] at h
      simp [mapDelete, he, ih h]

theorem mapInsert_length_present (m : List (String × page)) (k : String)
    (v q : page) (h : mapLookup m k = some q) :
    (mapInsert m k v).length = m.length := by
  induction m with
  | nil => exact absurd h (by simp [mapLookup])
  | cons e rest ih =>
    by_cases he : e.1 = k
    · simp [mapInsert, he]
    · rw [mapLookup, if_neg he] at h
      simp [mapInsert, he, ih h]

theorem mapDelete_length_present (m : List (String × page)) (k : String)
    (q : page) (hn : NodupKeys m) (h : mapLookup m k = some q) :
    (mapDelete m k).length + 1 = m.length := by
  induction m with
  | nil => exact absurd h (by simp [mapLookup])
  | cons e rest ih =>
    unfold NodupKeys at hn
    simp only [List.map_cons, List.nodup_cons] at hn
    by_cases he : e.1 = k
    · have hrest : mapLookup rest k = none := by
        apply mapLookup_none_of_not_mem_keys
        rw [← he]; exact hn.1
      simp [mapDelete, he, mapDelete_of_not_mem rest k hrest]
    · rw [mapLookup, if_neg he] at h
      have := ih hn.2 h
      rw [mapDelete, if_neg he, List.length_cons, List.length_cons]
      omega

theorem pagesSatK_insert (Q : String → page → Prop) (m : List (String × page))
    (k : String) (v : page) (hm : PagesSatK Q m) (hv : Q k v) :
    PagesSatK Q (mapInsert m k v) := by
  intro k' p hp
  rcases mapLookup_insert_cases m k k' v p hp with ⟨hk, hpv⟩ | ⟨_, hlk⟩
  · subst hk; subst hpv; exact hv
  · exact hm k' p hlk

theorem pagesSatK_delete (Q : String → page → Prop) (m : List (String × page))
    (k : String) (hm : PagesSatK Q m) : PagesSatK Q (mapDelete m k) := by
  intro k' p hp
  exact hm k' p (mapLookup_delete_sub m k k' p hp)

theorem pagesSatK_addPage (Q : String → page → Prop) (s : Site) (uri : String)
    (d : date) (tmpls : List String) (hm : PagesSatK Q s.pages)
    (hlen : 0 < tmpls.length)
    (hv : Q uri { Title := s.title, URI := uri, Data := none, Date := d,
                  redirectURI := "", tmpl := some ⟨tmpls⟩ }) :
    PagesSatK Q (s.addPage uri d none tmpls).pages := by
  intro k p hp
  have hp' : mapLookup (mapInsert s.pages uri
      { Title := s.title, URI := uri, Data := none, Date := d,
        redirectURI := "",
        tmpl := if tmpls.length > 0 then some ⟨tmpls⟩ else none }) k = some p := hp
  rw [if_pos hlen] at hp'
  rcases mapLookup_insert_cases _ _ _ _ _ hp' with ⟨hk, hpv⟩ | ⟨_, hlk⟩
  · subst hk; subst hpv; exact hv
  · exact hm k p hlk

theorem readPages_satK (Q : String → page → Prop)
    (hQ : ∀ (title uri : String) (d : date) (tmpls : List String),
        Q uri { Title := title, URI := uri, Data := none, Date := d,
                redirectURI := "", tmpl := some ⟨tmpls⟩ }) :
    ∀ (paths : List String) (s s' : Site), PagesSatK Q s.pages →
      Site.readPages s paths = Except.ok s' → PagesSatK Q s'.pages := by
  intro paths
  induction paths with
  | nil =>
    intro s s' hm h
    unfold Site.readPages at h
    exact (Except.ok.inj h) ▸ hm
  | cons path rest ih =>
    intro s s' hm h
    unfold Site.readPages at h
    cases hp : parsePath path with
    | error e => rw [hp] at h; exact Except.noConfusion h
    | ok ud =>
      obtain ⟨uri, d⟩ := ud
      rw [hp] at h
      refine ih (s.addPage uri d none (s.templates ++ [path])) s' ?_ h
      exact pagesSatK_addPage Q s uri d (s.templates ++ [path]) hm (by simp) (hQ _ _ _ _)

theorem read_satK (Q : String → page → Prop)
    (hQ : ∀ (title uri : String) (d : date) (tmpls : List String),
        Q uri { Title := title, URI := uri, Data := none, Date := d,
                redirectURI := "", tmpl := some ⟨tmpls⟩ })
    (s₀ : Site) (globResult : Except SiteError (List String)) (s : Site)
    (h : Site.read s₀ globResult = Except.ok s) : PagesSatK Q s.pages := by
  unfold Site.read at h
  cases hg : getFiles globResult with
  | error e => rw [hg] at h; exact Except.noConfusion h
  | ok filePaths =>
    rw [hg] at h
    refine readPages_satK Q hQ filePaths { s₀ with pages := [] } s ?_ h
    intro k p hp
    exact Option.noConfusion hp

theorem reachableWF_disj (s : Site) (hs : ReachableWF s) :
    ∀ k p, mapLookup s.pages k = some p →
      (p.tmpl ≠ none ∧ p.redirectURI = "") ∨
      (p.redirectURI ≠ "" ∧ p.tmpl = none) := by
  induction hs with
  | init s₀ g s h =>
    refine read_satK _ ?_ s₀ g s h
    intro title uri d tmpls
    exact Or.inl ⟨by simp, rfl⟩
  | change s u v s' hs hok ih =>
    unfold Site.ChangeURI at hok
    cases hl : mapLookup s.pages u with
    | none => rw [hl] at hok; exact Except.noConfusion hok
    | some p₀ =>
      rw [hl] at hok
      have hrec := Except.ok.inj hok
      subst hrec
      refine pagesSatK_insert _ _ _ _ (pagesSatK_delete _ _ _ ih) ?_
      exact ih u p₀ hl
  | addRedir s u r s' hs hr hok ih =>
    unfold Site.AddRedirect at hok
    cases hl : mapLookup s.pages u with
    | some p₀ => rw [hl] at hok; exact Except.noConfusion hok
    | none =>
      rw [hl] at hok
      have hrec := Except.ok.inj hok
      subst hrec
      refine pagesSatK_insert _ _ _ _ ih ?_
      exact Or.inr ⟨hr, rfl⟩

theorem append_ne_self (u t : String) (ht : t.length ≠ 0) : u ++ t ≠ u := by
  intro he
  have hl := congrArg String.length he
  rw [String.length_append] at hl
  omega

/-
Claim theorems.
-/

/-- C1, counterexample: on the four-segment path `d/2020/05/x.tmpl` the
parser returns the URI `/2020/05/x`, dropping the leading directory, and
not `/d/2020/05/x` as claimed. -/
theorem parsePath_keeps_dir_cex :
    parsePath "d/2020/05/x.tmpl" =
      Except.ok ("/2020/05/x", { Year := 2020, Month := 5 }) ∧
    parsePath "d/2020/05/x.tmpl" ≠
      Except.ok ("/d/2020/05/x", { Year := 2020, Month := 5 }) := by
  constructor
  · decide
  · decide

/-- C1, amended: for every path splitting on `/` into exactly four
segments `dir / yyyy / mm / name.tmpl` with `1900 < yyyy < 99999` and
`1 ≤ mm ≤ 12`, `parsePath` succeeds and returns the URI
`/yyyy/mm/name` — the leading directory segment is dropped, matching the
two-segment case — together with `Date{yyyy, mm}`. -/
theorem parsePath_dated_ok (p dir y m name : String) (yv mv : Int)
    (hsplit : goSplit p '/' = [dir, y, m, name ++ ".tmpl"])
    (hy : parseSignedInt y = some yv) (hy1 : 1900 < yv) (hy2 : yv < 99999)
    (hm : parseSignedInt m = some mv) (hm1 : 1 ≤ mv) (hm2 : mv ≤ 12) :
    parsePath p =
      Except.ok ("/" ++ y ++ "/" ++ m ++ "/" ++ name,
        { Year := yv, Month := mv }) := by
  have hred : parsePath p =
      match getDate y m with
      | Except.error e => Except.error e
      | Except.ok d =>
        Except.ok
          ("/" ++ goJoin "/" [y, m, trimSuffix (name ++ ".tmpl") ".tmpl"],
            d) := by
    unfold parsePath
    rw [hsplit]
  rw [getDate_ok y m yv mv hy hy1 hy2 hm hm1 hm2] at hred
  have hred2 : parsePath p =
      Except.ok
        ("/" ++ goJoin "/" [y, m, trimSuffix (name ++ ".tmpl") ".tmpl"],
          { Year := yv, Month := mv }) := hred
  rw [hred2, trimSuffix_append]
  simp [goJoin, String.append_assoc]

/-- C1, witness: the amended theorem applied to the concrete path
`blog/2021/07/post.tmpl`. -/
theorem parsePath_dated_ok_witness :
    parsePath "blog/2021/07/post.tmpl" =
      Except.ok ("/" ++ "2021" ++ "/" ++ "07" ++ "/" ++ "post",
        { Year := 2021, Month := 7 }) :=
  parsePath_dated_ok "blog/2021/07/post.tmpl" "blog" "2021" "07" "post" 2021 7
    (by decide) (by decide) (by decide) (by decide) (by decide) (by decide)
    (by decide)

/-- C2, counterexample: when the glob expands to the single lock file
`.#a.tmpl`, `getFiles` filters it out and returns an empty list with no
error — the `noPagesFound` check runs on the raw expansion, before the
`.#` filter, so "zero net matches after filtering" is not an error. -/
theorem getFiles_filtered_empty_cex :
    getFiles (Except.ok [".#a.tmpl"]) = Except.ok [] ∧
    getFiles (Except.ok [".#a.tmpl"]) ≠
      Except.error SiteError.noPagesFound := by
  constructor
  · decide
  · decide

/-- C2, amended: `getFiles` keeps exactly the matches free of the
substring `.#`, and returns the `noPagesFound` error precisely when the
glob expansion itself — before filtering — is empty; on an empty
expansion `New` is fatal. -/
theorem getFiles_spec (paths : List String) :
    (getFiles (Except.ok paths) = Except.error SiteError.noPagesFound ↔
      paths = [])
  ∧ (∀ l, getFiles (Except.ok paths) = Except.ok l →
      ∀ p, p ∈ l ↔ (p ∈ paths ∧ containsDotHash p = false))
  ∧ (∀ (title glob live : String) (tmpls : List String),
      New title glob live tmpls (Except.ok ([] : List String)) =
        Except.error SiteError.noPagesFound) := by
  have hNew : ∀ (title glob live : String) (tmpls : List String),
      New title glob live tmpls (Except.ok ([] : List String)) =
        Except.error SiteError.noPagesFound := fun _ _ _ _ => rfl
  have hred : getFiles (Except.ok paths) =
      if paths.length = 0 then Except.error SiteError.noPagesFound
      else Except.ok (paths.filter (fun p => !containsDotHash p)) := rfl
  rw [hred]
  by_cases h : paths.length = 0
  · have hp : paths = [] := List.length_eq_zero.mp h
    subst hp
    refine ⟨by simp, ?_, hNew⟩
    intro l hl
    exact absurd hl (by simp)
  · have hne : paths ≠ [] := fun hx => h (by rw [hx]; rfl)
    rw [if_neg h]
    refine ⟨⟨fun hx => absurd hx (by simp), fun hx => absurd hx hne⟩, ?_,
      hNew⟩
    intro l hl p
    have hlf := Except.ok.inj hl
    subst hlf
    rw [List.mem_filter]
    simp [Bool.not_eq_true']

/-- C2, witness: the amended theorem applied to a glob expansion holding
one lock file and one real page. -/
theorem getFiles_spec_witness :
    "b.tmpl" ∈ [".#a.tmpl", "b.tmpl"] ∧ containsDotHash "b.tmpl" = false :=
  ((getFiles_spec [".#a.tmpl", "b.tmpl"]).2.1 ["b.tmpl"] (by decide)
    "b.tmpl").mp (by decide)

/-- C3: a page serves 404 exactly when the raw request URI differs from
its registered URI; in particular appending a trailing slash or a query
string to the registered URI always yields 404. -/
theorem serveHTTP_notFound_iff :
    (∀ (renderOk : Bool) (p : page) (req : String),
        page.ServeHTTP renderOk p req = Response.notFound ↔ req ≠ p.URI)
  ∧ (∀ (renderOk : Bool) (p : page),
      page.ServeHTTP renderOk p (p.URI ++ "/") = Response.notFound ∧
      page.ServeHTTP renderOk p (p.URI ++ "?q=1") = Response.notFound) := by
  have hmain : ∀ (renderOk : Bool) (p : page) (req : String),
      page.ServeHTTP renderOk p req = Response.notFound ↔ req ≠ p.URI := by
    intro renderOk p req
    unfold page.ServeHTTP
    by_cases h : p.URI = req
    · subst h
      rw [if_neg (fun hx => hx rfl)]
      constructor
      · intro hx
        split_ifs at hx
      · intro hx
        exact absurd rfl hx
    · rw [if_pos h]
      exact ⟨fun _ he => h he.symm, fun _ => rfl⟩
  refine ⟨hmain, ?_⟩
  intro renderOk p
  exact ⟨(hmain renderOk p _).mpr (append_ne_self p.URI "/" (by decide)),
    (hmain renderOk p _).mpr (append_ne_self p.URI "?q=1" (by decide))⟩

/-- C3, witness: the concrete home page serves 404 on a trailing slash
and on an appended query string. -/
theorem serveHTTP_notFound_iff_witness :
    page.ServeHTTP true demoHome (demoHome.URI ++ "/") = Response.notFound ∧
    page.ServeHTTP true demoHome (demoHome.URI ++ "?q=1") =
      Response.notFound :=
  serveHTTP_notFound_iff.2 true demoHome

/-- C4: on a registry without the key `/x`, registering a redirect from
`/x` to `/y` succeeds, and serving a request whose raw URI is exactly
`/x` against the stored page yields a 302 whose location is `/y`;
registering a redirect on an already-taken URI is fatal. -/
theorem addRedirect_serves_302 (s : Site) (renderOk : Bool)
    (h : mapLookup s.pages "/x" = none) :
    serveAfterRedirect s "/x" "/y" "/x" renderOk =
      some (Response.redirect "/y")
  ∧ (∀ (s₂ : Site) (u v : String) (q : page),
      mapLookup s₂.pages u = some q →
      Site.AddRedirect s₂ u v = Except.error (SiteError.uriTaken u)) := by
  constructor
  · have h1 : serveAfterRedirect s "/x" "/y" "/x" renderOk =
        match mapLookup (mapInsert s.pages "/x"
            { Title := s.title, Date := { Year := 0, Month := 0 },
              URI := "/x", Data := none, redirectURI := "/y",
              tmpl := none }) "/x" with
        | none => none
        | some p => some (page.ServeHTTP renderOk p "/x") := by
      unfold serveAfterRedirect Site.AddRedirect
      rw [h]
    rw [h1, mapLookup_insert_self]
    show some (page.ServeHTTP renderOk
      { Title := s.title, Date := { Year := 0, Month := 0 }, URI := "/x",
        Data := none, redirectURI := "/y", tmpl := none } "/x") =
      some (Response.redirect "/y")
    unfold page.ServeHTTP
    rw [if_neg (by simp), if_pos (show ("/y" : String) ≠ "" by decide)]
  · intro s₂ u v q hq
    unfold Site.AddRedirect
    rw [hq]

/-- C4, witness: the redirect scenario run on a concrete empty site. -/
theorem addRedirect_serves_302_witness :
    serveAfterRedirect demoSite0 "/x" "/y" "/x" true =
      some (Response.redirect "/y") :=
  (addRedirect_serves_302 demoSite0 true (by decide)).1

/-- C5: when `oldURI` is registered, `ChangeURI oldURI newURI` succeeds
and yields a registry holding `newURI` bound to a page whose URI field is
`newURI`, and no longer holding `oldURI` (when the two differ); calling
it on an unregistered URI is fatal. -/
theorem changeURI_moves_page (s : Site) (oldURI newURI : String) (p : page)
    (h : mapLookup s.pages oldURI = some p) :
    (∃ s', Site.ChangeURI s oldURI newURI = Except.ok s' ∧
        (∃ q, mapLookup s'.pages newURI = some q ∧ q.URI = newURI) ∧
        (oldURI ≠ newURI → mapLookup s'.pages oldURI = none))
  ∧ (∀ (s₂ : Site) (u v : String), mapLookup s₂.pages u = none →
      Site.ChangeURI s₂ u v = Except.error (SiteError.noPageWithURI u)) := by
  constructor
  · refine ⟨{ s with
        pages := mapInsert (mapDelete s.pages oldURI) newURI
                   { p with URI := newURI } }, ?_, ?_, ?_⟩
    · unfold Site.ChangeURI
      rw [h]
    · exact ⟨_, mapLookup_insert_self _ _ _, rfl⟩
    · intro hne
      have hgoal : mapLookup (mapInsert (mapDelete s.pages oldURI) newURI
          { p with URI := newURI }) oldURI = none := by
        rw [mapLookup_insert_ne _ _ _ _ hne]
        exact mapLookup_delete_self s.pages oldURI
      exact hgoal
  · intro s₂ u v hnone
    unfold Site.ChangeURI
    rw [hnone]

/-- C5, witness: moving the demo home page from `/home` to `/start`. -/
theorem changeURI_moves_page_witness :
    mapLookup demoSiteStart.pages "/start" = some demoStart ∧
    demoStart.URI = "/start" ∧
    mapLookup demoSiteStart.pages "/home" = none := by
  have h := changeURI_moves_page demoSite "/home" "/start" demoHome (by decide)
  obtain ⟨⟨s', hok, ⟨q, hq, hquri⟩, hnone⟩, _⟩ := h
  have hs' : s' = demoSiteStart := by
    have hok2 : Site.ChangeURI demoSite "/home" "/start" =
        Except.ok demoSiteStart := by decide
    rw [hok] at hok2
    exact Except.ok.inj hok2
  subst hs'
  have hq2 : q = demoStart := by
    have hlk : mapLookup demoSiteStart.pages "/start" = some demoStart := by
      decide
    rw [hlk] at hq
    exact (Option.some.inj hq).symm
  subst hq2
  exact ⟨hq, hquri, hnone (by decide)⟩

/-- C6: `getDate` fails with a bad-year error exactly when the year
string does not parse or parses outside the open interval (1900, 99999);
once the year is accepted it fails with a bad-month error exactly when
the month string does not parse or parses outside [1, 12]; and with both
accepted it returns the date. -/
theorem getDate_error_conditions (y m : String) :
    (getDate y m = Except.error (SiteError.badYear y) ↔
      parseSignedInt y = none ∨
        ∃ v, parseSignedInt y = some v ∧ (v ≤ 1900 ∨ 99999 ≤ v))
  ∧ (∀ yv : Int, parseSignedInt y = some yv → 1900 < yv → yv < 99999 →
      (getDate y m = Except.error (SiteError.badMonth m) ↔
        parseSignedInt m = none ∨
          ∃ w, parseSignedInt m = some w ∧ (w < 1 ∨ 12 < w)))
  ∧ (∀ yv mv : Int, parseSignedInt y = some yv → 1900 < yv → yv < 99999 →
      parseSignedInt m = some mv → 1 ≤ mv → mv ≤ 12 →
      getDate y m = Except.ok { Year := yv, Month := mv }) := by
  refine ⟨?_, ?_, ?_⟩
  · cases hy : parseSignedInt y with
    | none => exact iff_of_true (getDate_badYear_none y m hy) (Or.inl rfl)
    | some v =>
      by_cases hv : v ≤ 1900 ∨ 99999 ≤ v
      · exact iff_of_true (getDate_badYear_range y m v hy hv)
          (Or.inr ⟨v, rfl, hv⟩)
      · have hL : getDate y m ≠ Except.error (SiteError.badYear y) := by
          cases hm : parseSignedInt m with
          | none => rw [getDate_badMonth_none y m v hy hv hm]; simp
          | some w =>
            by_cases hw : w < 1 ∨ 12 < w
            · rw [getDate_badMonth_range y m v w hy hv hm hw]; simp
            · rw [getDate_ok y m v w hy (by omega) (by omega) hm (by omega)
                (by omega)]
              simp
        have hR : ¬((some v : Option Int) = none ∨
            ∃ v', (some v : Option Int) = some v' ∧
              (v' ≤ 1900 ∨ 99999 ≤ v')) := by
          rintro (hnone | ⟨v', hv', hrange⟩)
          · exact Option.noConfusion hnone
          · have hvv : v = v' := Option.some.inj hv'
            subst hvv
            exact hv hrange
        exact iff_of_false hL hR
  · intro yv hyv h1 h2
    have hv : ¬(yv ≤ 1900 ∨ 99999 ≤ yv) := by omega
    cases hm : parseSignedInt m with
    | none =>
      exact iff_of_true (getDate_badMonth_none y m yv hyv hv hm) (Or.inl rfl)
    | some w =>
      by_cases hw : w < 1 ∨ 12 < w
      · exact iff_of_true (getDate_badMonth_range y m yv w hyv hv hm hw)
          (Or.inr ⟨w, rfl, hw⟩)
      · have hL : getDate y m ≠ Except.error (SiteError.badMonth m) := by
          rw [getDate_ok y m yv w hyv (by omega) (by omega) hm (by omega)
            (by omega)]
          simp
        have hR : ¬((some w : Option Int) = none ∨
            ∃ w', (some w : Option Int) = some w' ∧ (w' < 1 ∨ 12 < w')) := by
          rintro (hnone | ⟨w', hw', hrange⟩)
          · exact Option.noConfusion hnone
          · have hww : w = w' := Option.some.inj hw'
            subst hww
            exact hw hrange
        exact iff_of_false hL hR
  · intro yv mv hyv h1 h2 hmv h3 h4
    exact getDate_ok y m yv mv hyv h1 h2 hmv h3 h4

/-- C6, witness: the rejection of month 13, the rejection of year 1900
and the acceptance of July 2020, all on concrete strings. -/
theorem getDate_error_conditions_witness :
    getDate "2020" "7" = Except.ok { Year := 2020, Month := 7 } :=
  (getDate_error_conditions "2020" "7").2.2 2020 7 (by decide) (by decide)
    (by decide) (by decide) (by decide) (by decide)

/-- C7, counterexample: starting from a successfully constructed site,
the call `AddRedirect "/bad" ""` succeeds and stores a page that has no
compiled template and no redirect target either, so not every reachable
page satisfies exactly one of the two alternatives. -/
theorem addRedirect_empty_target_cex :
    Site.read demoSite0 (Except.ok ["pages/home.tmpl"]) =
      Except.ok demoSite ∧
    Site.AddRedirect demoSite "/bad" "" = Except.ok demoBadSite ∧
    mapLookup demoBadSite.pages "/bad" = some demoBadPage ∧
    demoBadPage.tmpl = none ∧ demoBadPage.redirectURI = "" := by
  refine ⟨by decide, by decide, by decide, rfl, rfl⟩

/-- C7, amended: after successful construction and any sequence of
successful `ChangeURI` and `AddRedirect` calls in which every redirect
target is non-empty, every registered page has exactly one of a compiled
template (discovered pages, whose redirect is empty) or a non-empty
redirect target (redirect pages, whose template is absent). -/
theorem reachableWF_exactly_one (s : Site) (hs : ReachableWF s) :
    ∀ k p, mapLookup s.pages k = some p →
      ((p.tmpl ≠ none ∧ p.redirectURI = "") ∧
        ¬(p.redirectURI ≠ "" ∧ p.tmpl = none)) ∨
      ((p.redirectURI ≠ "" ∧ p.tmpl = none) ∧
        ¬(p.tmpl ≠ none ∧ p.redirectURI = "")) := by
  intro k p hp
  rcases reachableWF_disj s hs k p hp with ⟨h1, h2⟩ | ⟨h1, h2⟩
  · exact Or.inl ⟨⟨h1, h2⟩, fun hx => hx.1 h2⟩
  · exact Or.inr ⟨⟨h1, h2⟩, fun hx => h1 hx.2⟩

/-- C7, witness: the amended invariant evaluated on the concrete
constructed demo site at its only page. -/
theorem reachableWF_exactly_one_witness :
    ((demoHome.tmpl ≠ none ∧ demoHome.redirectURI = "") ∧
      ¬(demoHome.redirectURI ≠ "" ∧ demoHome.tmpl = none)) ∨
    ((demoHome.redirectURI ≠ "" ∧ demoHome.tmpl = none) ∧
      ¬(demoHome.tmpl ≠ none ∧ demoHome.redirectURI = "")) :=
  reachableWF_exactly_one demoSite
    (ReachableWF.init demoSite0 (Except.ok ["pages/home.tmpl"]) demoSite
      (by decide))
    "/home" demoHome (by decide)

/-- C8: `date.before` is the strict lexicographic order on
(Year, Month), with the stated consequences on concrete dates and on the
zero date against any positive year. -/
theorem before_strict_lex :
    (∀ a b : date, a.before b = true ↔
        (a.Year < b.Year ∨ (a.Year = b.Year ∧ a.Month < b.Month)))
  ∧ date.before { Year := 2020, Month := 3 } { Year := 2020, Month := 5 } =
      true
  ∧ date.before { Year := 2019, Month := 12 } { Year := 2020, Month := 1 } =
      true
  ∧ (∀ d : date, 0 < d.Year →
      date.before { Year := 0, Month := 0 } d = true) := by
  have hmain : ∀ a b : date, a.before b = true ↔
      (a.Year < b.Year ∨ (a.Year = b.Year ∧ a.Month < b.Month)) := by
    intro a b
    unfold date.before
    split_ifs with h1 h2
    · exact iff_of_true rfl (Or.inl h1)
    · simp [h1, h2]
    · refine iff_of_false (by simp) ?_
      rintro (hx | ⟨hx, _⟩)
      · exact h1 hx
      · exact h2 hx
  refine ⟨hmain, by decide, by decide, ?_⟩
  intro d hd
  exact (hmain _ d).mpr (Or.inl hd)

/-- C8, witness: the zero date is before a concrete date with positive
year, by the last part of the theorem. -/
theorem before_strict_lex_witness :
    date.before { Year := 0, Month := 0 } { Year := 5, Month := 1 } = true :=
  before_strict_lex.2.2.2 { Year := 5, Month := 1 } (by decide)

/-- C9: every mutation of the registry keeps each stored page's URI field
equal to the key it is stored under, for every site reachable through
construction, `ChangeURI` and `AddRedirect`. -/
theorem reachable_uri_eq_key (s : Site) (hs : Reachable s) :
    ∀ k p, mapLookup s.pages k = some p → p.URI = k := by
  induction hs with
  | init s₀ g s h =>
    refine read_satK (fun k p => p.URI = k) ?_ s₀ g s h
    intro title uri d tmpls
    rfl
  | change s u v s' hs hok ih =>
    unfold Site.ChangeURI at hok
    cases hl : mapLookup s.pages u with
    | none => rw [hl] at hok; exact Except.noConfusion hok
    | some p₀ =>
      rw [hl] at hok
      have hrec := Except.ok.inj hok
      subst hrec
      refine pagesSatK_insert _ _ _ _ (pagesSatK_delete _ _ _ ih) ?_
      rfl
  | addRedir s u r s' hs hok ih =>
    unfold Site.AddRedirect at hok
    cases hl : mapLookup s.pages u with
    | some p₀ => rw [hl] at hok; exact Except.noConfusion hok
    | none =>
      rw [hl] at hok
      have hrec := Except.ok.inj hok
      subst hrec
      refine pagesSatK_insert _ _ _ _ ih ?_
      rfl

/-- C9, witness: the concrete constructed site stores the home page under
the key equal to its URI field. -/
theorem reachable_uri_eq_key_witness : demoHome.URI = "/home" :=
  reachable_uri_eq_key demoSite
    (Reachable.init demoSite0 (Except.ok ["pages/home.tmpl"]) demoSite
      (by decide))
    "/home" demoHome (by decide)

/-- C10: a successful `ChangeURI oldURI newURI` leaves every key other
than the two involved untouched; and when `newURI` was already taken (by
a different key than `oldURI`), the old occupant is silently overwritten
by the moved page and the registry shrinks by exactly one entry. -/
theorem changeURI_frame (s : Site) (oldURI newURI : String) (p : page)
    (h : mapLookup s.pages oldURI = some p) :
    (∀ s', Site.ChangeURI s oldURI newURI = Except.ok s' →
        ∀ k, k ≠ oldURI → k ≠ newURI →
          mapLookup s'.pages k = mapLookup s.pages k)
  ∧ (∀ q, mapLookup s.pages newURI = some q → newURI ≠ oldURI →
      NodupKeys s.pages →
      ∀ s', Site.ChangeURI s oldURI newURI = Except.ok s' →
        mapLookup s'.pages newURI = some { p with URI := newURI } ∧
        s'.pages.length + 1 = s.pages.length) := by
  have hok : Site.ChangeURI s oldURI newURI =
      Except.ok { s with
        pages := mapInsert (mapDelete s.pages oldURI) newURI
                   { p with URI := newURI } } := by
    unfold Site.ChangeURI
    rw [h]
  constructor
  · intro s' hs' k hko hkn
    rw [hok] at hs'
    have hrec := Except.ok.inj hs'
    subst hrec
    have hstep : mapLookup (mapInsert (mapDelete s.pages oldURI) newURI
        { p with URI := newURI }) k = mapLookup s.pages k := by
      rw [mapLookup_insert_ne _ _ _ _ hkn, mapLookup_delete_ne _ _ _ hko]
    exact hstep
  · intro q hq hne hnodup s' hs'
    rw [hok] at hs'
    have hrec := Except.ok.inj hs'
    subst hrec
    constructor
    · exact mapLookup_insert_self _ _ _
    · have hdel : mapLookup (mapDelete s.pages oldURI) newURI = some q := by
        rw [mapLookup_delete_ne _ _ _ hne]
        exact hq
      have hins : (mapInsert (mapDelete s.pages oldURI) newURI
          { p with URI := newURI }).length =
          (mapDelete s.pages oldURI).length :=
        mapInsert_length_present _ _ _ q hdel
      have hlen := mapDelete_length_present s.pages oldURI p hnodup h
      have hgoal : (mapInsert (mapDelete s.pages oldURI) newURI
          { p with URI := newURI }).length + 1 = s.pages.length := by
        rw [hins]
        exact hlen
      exact hgoal

/-- C10, witness: moving `/a` onto the occupied key `/b` in the concrete
two-page site overwrites the `/b` page and shrinks the registry from two
entries to one, leaving the unrelated key `/z` unchanged. -/
theorem changeURI_frame_witness :
    (mapLookup demoTwoAfter.pages "/z" = mapLookup demoTwo.pages "/z") ∧
    mapLookup demoTwoAfter.pages "/b" = some demoMovedA ∧
    demoTwoAfter.pages.length + 1 = demoTwo.pages.length := by
  have h := changeURI_frame demoTwo "/a" "/b" demoPageA (by decide)
  have hframe := h.1 demoTwoAfter (by decide) "/z" (by decide) (by decide)
  have hsize := h.2 demoPageB (by decide) (by decide)
    (by unfold NodupKeys; decide) demoTwoAfter (by decide)
  exact ⟨hframe, hsize.1, hsize.2⟩

end Autosite
